import Mathlib

/-!
# Verification of the `timeseries` period-detection engine

A shallow embedding of `analyzeTimeseries.go` (package `timeseries`).

Modelling conventions:

* Go `float64` values are modelled by `ℚ`; Go `int` by `ℤ`; slice lengths and
  counts by `ℕ`.
* A `time.Time` moment is modelled by its absolute epoch-millisecond value
  (`ℤ`).  `time.Unix(ts/1000, (ts%1000)*1e6)` therefore maps the raw
  timestamp `ts` (milliseconds) to the moment `tdiv ts 1000 * 1000 + tmod ts 1000`.
  The calendar is the proleptic Gregorian calendar in UTC (the embedding pins
  one fixed zone, as the design notes of the package require).
* `math.Cos`, `math.Sin` and `math.Pi` are transcendental; they are modelled
  by an oracle record `Trig` of rational-valued functions, kept abstract in
  the theorems and instantiated concretely in witnesses.  All structural
  facts proved below hold for every oracle.
* `t.Truncate(24h)` rounds an absolute moment down to a multiple of 24 h; a
  calendar day is therefore modelled by its day index `⌊ms / 86400000⌋`, a
  calendar month by the index `year * 12 + (month - 1)`, and a day-truncated
  `time.Time` value by `dayIndex * 86400000`.
-/

/-- Oracle for the trigonometric primitives of the Go `math` package. -/
structure Trig where
  cos : ℚ → ℚ
  sin : ℚ → ℚ
  pi : ℚ

/-- `PeriodConfig` from the source: spectral-analysis parameters. -/
structure PeriodConfig where
  minPeriod : ℚ
  maxPeriod : ℚ
  numPeriods : ℤ
  samplesPerPeak : ℤ
deriving DecidableEq, Inhabited

/-- `PeriodResult` from the source: one detected period. -/
structure PeriodResult where
  period : ℚ
  power : ℚ
  significance : ℚ
deriving DecidableEq, Inhabited

/-- `PeriodResults` from the source.  The Go `Quarterly` field is a
`map[string][]PeriodResult`; a quarter label `"YYYY-Qn"` is modelled by the
pair `(year, n)` and the map by an association list in first-insertion
order (the label formatting is injective, and no claim depends on map
iteration order). -/
structure PeriodResults where
  daily : List PeriodResult
  weekly : List PeriodResult
  allTime : List PeriodResult
  quarterly : List ((ℤ × ℤ) × List PeriodResult)
deriving DecidableEq, Inhabited

/-- `DayRecord` from the source; `date` is the calendar-day index. -/
structure DayRecord where
  date : ℤ
  count : ℕ
deriving DecidableEq, Inhabited

/-- `WeekRecord` from the source; `week` is the day index of the Monday
starting the week. -/
structure WeekRecord where
  week : ℤ
  count : ℕ
deriving DecidableEq, Inhabited

/-- `MonthRecord` from the source; `month` is the month index
`year * 12 + (month - 1)` of the first day of the month. -/
structure MonthRecord where
  month : ℤ
  count : ℕ
deriving DecidableEq, Inhabited

/-- `ContinuousResult` from the source.  `endTime` renders the Go field
`End`. -/
structure ContinuousResult where
  allData : PeriodResults
  longestContinuous : PeriodResults
  start : ℤ
  endTime : ℤ
  recordCount : ℕ
deriving DecidableEq, Inhabited

/-- `AnalysisResult` from the source. -/
structure AnalysisResult where
  totalRecords : ℕ
  startDate : ℤ
  endDate : ℤ
  days : List DayRecord
  weeks : List WeekRecord
  months : List MonthRecord
  periods : PeriodResults
  continuous : ContinuousResult
deriving DecidableEq, Inhabited

/-- `DefaultPeriodConfig` from the source. -/
def DefaultPeriodConfig : PeriodConfig :=
  { minPeriod := 1/10, maxPeriod := 8760, numPeriods := 5, samplesPerPeak := 5 }

/-- The zero `time.Time{}` value (0001-01-01T00:00:00Z) in epoch
milliseconds. -/
def zeroTimeMs : ℤ := -62135596800000

/-- `time.Unix(ts/1000, (ts%1000)*int64(time.Millisecond))` in the
milliseconds model (`/` and `%` are Go's truncated division). -/
def toMoment (ts : ℤ) : ℤ := Int.tdiv ts 1000 * 1000 + Int.tmod ts 1000

/-- `t.Truncate(24 * time.Hour)`: the calendar-day index of a moment
(`Truncate` rounds down, hence floor division). -/
def dayOf (t : ℤ) : ℤ := Int.fdiv t 86400000

/-- Go's conversion `int(x)` of a `float64`: truncation toward zero. -/
def ratTrunc (q : ℚ) : ℤ := if 0 ≤ q then ⌊q⌋ else -⌊-q⌋

/-- The running-minimum scan the source uses (`start = times[0]`, then
`if t.Before(start) { start = t }`). -/
def foldlMin (l : List ℤ) : ℤ := l.foldl min (l.headD 0)

/-- The running-maximum scan the source uses. -/
def foldlMax (l : List ℤ) : ℤ := l.foldl max (l.headD 0)

/-- `findDateRange` from the source. -/
def findDateRange (times : List ℤ) : ℤ × ℤ :=
  if times = [] then (zeroTimeMs, zeroTimeMs) else (foldlMin times, foldlMax times)

/-- `convertToHours` from the source: hours relative to the minimum moment
(`Duration.Hours` divides milliseconds by 3600000). -/
def convertToHours (times : List ℤ) : List ℚ :=
  if times = [] then []
  else
    let minTime := foldlMin times
    times.map (fun t => ((t - minTime : ℤ) : ℚ) / 3600000)

/-- `filterByTimeRange` from the source: keep moments strictly after
`endT - durMs` and strictly before `endT + 24h`. -/
def filterByTimeRange (times : List ℤ) (endT durMs : ℤ) : List ℤ :=
  times.filter (fun t => decide (endT - durMs < t ∧ t < endT + 86400000))

/-- `computePower` from the source: the classical periodogram power
`((Σ cos(ω t))² + (Σ sin(ω t))²) / N` with `ω = 2 π f`. -/
def computePower (tr : Trig) (times : List ℚ) (freq : ℚ) : ℚ :=
  let omega := 2 * tr.pi * freq
  let sumCos := (times.map (fun t => tr.cos (omega * t))).sum
  let sumSin := (times.map (fun t => tr.sin (omega * t))).sum
  (sumCos * sumCos + sumSin * sumSin) / (times.length : ℚ)

/-- `computePeriodogram` from the source.  The span `T` is taken from the
positionally first and last elements; `nFreqs` is the Go `int` conversion
(truncation) clamped to `[100, 10000]`. -/
def computePeriodogram (cfg : PeriodConfig) (tr : Trig) (times : List ℚ) :
    List ℚ × List ℚ :=
  let minFreq : ℚ := 1 / cfg.maxPeriod
  let maxFreq : ℚ := 1 / cfg.minPeriod
  let T : ℚ := times.getLastD 0 - times.headD 0
  if T ≤ 0 then ([], [])
  else
    let n0 : ℤ := ratTrunc ((cfg.samplesPerPeak : ℚ) * T * (maxFreq - minFreq))
    let nFreqs : ℤ := if n0 < 100 then 100 else if 10000 < n0 then 10000 else n0
    let df : ℚ := (maxFreq - minFreq) / ((nFreqs : ℚ) - 1)
    let freqs := (List.range nFreqs.toNat).map (fun i : ℕ => minFreq + (i : ℚ) * df)
    (freqs, freqs.map (fun f => computePower tr times f))

/-- `findLocalPeaks` from the source: interior indices that strictly
dominate both neighbours. -/
def findLocalPeaks (data : List ℚ) : List ℕ :=
  (List.range data.length).filter
    (fun i => decide (1 ≤ i ∧ i + 1 < data.length ∧
      data.getD (i-1) 0 < data.getD i 0 ∧ data.getD (i+1) 0 < data.getD i 0))

/-- The total order "higher power first; on exactly equal power, lower
frequency index first". -/
def peakOrder (powers : List ℚ) (i j : ℕ) : Prop :=
  powers.getD j 0 < powers.getD i 0 ∨ (powers.getD i 0 = powers.getD j 0 ∧ i ≤ j)

instance (powers : List ℚ) : DecidableRel (peakOrder powers) := fun i j => by
  unfold peakOrder; infer_instance

/-- Modelled from the spec: the source sorts the peak indices with the
standard-library routine `sort.Slice` and the comparator
`powers[peaks[i]] > powers[peaks[j]]`; that routine is library code absent
from this repository.  The spec states the resulting order — descending
power, exact-power ties kept in original frequency-index order (lower
frequency first).  On the duplicate-free index list produced by
`findLocalPeaks` that is precisely the sort by the total order `peakOrder`,
realised here by a sort along that order. -/
def sortPeaksByPower (peaks : List ℕ) (powers : List ℚ) : List ℕ :=
  List.insertionSort (peakOrder powers) peaks

/-- The normalisation constant of `findSignificantPeaks`: the sum of the
power over the entire spectrum, floored at `1e-10`. -/
def totalPower (powers : List ℚ) : ℚ :=
  let s := powers.sum
  if s < 1/10000000000 then 1/10000000000 else s

/-- The result record built for one retained peak index. -/
def emitPeak (freqs powers : List ℚ) (tp : ℚ) (idx : ℕ) : PeriodResult :=
  { period := 1 / freqs.getD idx 0
    power := powers.getD idx 0
    significance := powers.getD idx 0 / tp * 100 }

/-- `findSignificantPeaks` from the source. -/
def findSignificantPeaks (cfg : PeriodConfig) (freqs powers : List ℚ) :
    List PeriodResult :=
  let peaks := findLocalPeaks powers
  if peaks = [] then []
  else
    let sorted := sortPeaksByPower peaks powers
    let kept := if (sorted.length : ℤ) > cfg.numPeriods
      then sorted.take cfg.numPeriods.toNat else sorted
    kept.map (emitPeak freqs powers (totalPower powers))

/-- `detect` from the source. -/
def detect (cfg : PeriodConfig) (tr : Trig) (times : List ℤ) : List PeriodResult :=
  if times.length < 4 then []
  else
    let timesHours := convertToHours times
    let fp := computePeriodogram cfg tr timesHours
    findSignificantPeaks cfg fp.1 fp.2

/-- Proleptic-Gregorian civil date `(year, month, day)` of a day index
(days since 1970-01-01), following the standard era-based conversion the
Go `time` package's absolute-date computation realises. -/
def civilOfDay (z0 : ℤ) : ℤ × ℤ × ℤ :=
  let z := z0 + 719468
  let era := Int.fdiv z 146097
  let doe := z - era * 146097
  let yoe := Int.fdiv (doe - Int.fdiv doe 1460 + Int.fdiv doe 36524 - Int.fdiv doe 146096) 365
  let y := yoe + era * 400
  let doy := doe - (365 * yoe + Int.fdiv yoe 4 - Int.fdiv yoe 100)
  let mp := Int.fdiv (5 * doy + 2) 153
  let d := doy - Int.fdiv (153 * mp + 2) 5 + 1
  let m := mp + (if mp < 10 then 3 else -9)
  (y + (if m ≤ 2 then 1 else 0), m, d)

/-- Day index of a proleptic-Gregorian civil date (inverse of
`civilOfDay`). -/
def daysFromCivil (y0 m d : ℤ) : ℤ :=
  let y := y0 - (if m ≤ 2 then 1 else 0)
  let era := Int.fdiv y 400
  let yoe := y - era * 400
  let doy := Int.fdiv (153 * (m + (if 2 < m then -3 else 9)) + 2) 5 + d - 1
  let doe := yoe * 365 + Int.fdiv yoe 4 - Int.fdiv yoe 100 + doy
  era * 146097 + doe - 719468

/-- The month index `year * 12 + (month - 1)` of a moment: the key
`time.Date(t.Year(), t.Month(), 1, ...)` of `aggregateByMonth`. -/
def monthIndexOf (t : ℤ) : ℤ :=
  let c := civilOfDay (dayOf t)
  c.1 * 12 + (c.2.1 - 1)

/-- `getQuarter` from the source: the quarter label `"{year}-Q{1..4}"`,
modelled as the pair `(year, quarter)`. -/
def getQuarter (t : ℤ) : ℤ × ℤ :=
  let c := civilOfDay (dayOf t)
  let m := c.2.1
  (c.1, if m ≤ 3 then 1 else if m ≤ 6 then 2 else if m ≤ 9 then 3 else 4)

/-- Go `t.Weekday()` mapped to ISO numbering as in `aggregateByWeek`
(`Sunday → 7`, otherwise `Monday = 1 .. Saturday = 6`); day 0
(1970-01-01) is a Thursday. -/
def isoWeekdayOf (d : ℤ) : ℤ :=
  let wd := (d + 4) % 7
  if wd = 0 then 7 else wd

/-- `t.AddDate(0, 0, -(weekday-1)).Truncate(24h)`: the Monday starting the
week of a day. -/
def weekStartDay (d : ℤ) : ℤ := d - (isoWeekdayOf d - 1)

/-- Leap-year test of the proleptic Gregorian calendar. -/
def isLeapYear (y : ℤ) : Bool :=
  y % 4 = 0 && (y % 100 ≠ 0 || y % 400 = 0)

/-- Number of ISO weeks in an ISO year (53 iff January 1 is a Thursday, or
a Wednesday in a leap year). -/
def isoWeeksInYear (y : ℤ) : ℤ :=
  let jan1 := isoWeekdayOf (daysFromCivil y 1 1)
  if jan1 = 4 ∨ (isLeapYear y ∧ jan1 = 3) then 53 else 52

/-- `t.ISOWeek()`: the ISO-8601 `(year, week)` of a day index. -/
def isoWeekOf (d : ℤ) : ℤ × ℤ :=
  let c := civilOfDay d
  let y := c.1
  let doy := d - daysFromCivil y 1 1 + 1
  let wd := isoWeekdayOf d
  let w := Int.fdiv (doy - wd + 10) 7
  if w < 1 then (y - 1, isoWeeksInYear (y - 1))
  else if isoWeeksInYear y < w then (y + 1, 1)
  else (y, w)

/-- The zero `time.Time{}` as a day bucket: the day index of
0001-01-01T00:00:00Z.  The zero time is an exact multiple of 24 h, so a
day-truncated moment satisfies `IsZero()` exactly when its day index
equals this value. -/
def zeroDay : ℤ := dayOf zeroTimeMs

/-- The zero `time.Time{}` as a month bucket: `time.Date(1, January, 1,
0, 0, 0, 0, UTC)` is the zero time itself, so a month-key moment
satisfies `IsZero()` exactly when its month index equals this value. -/
def zeroMonth : ℤ := monthIndexOf zeroTimeMs

/-- One step of the source's minimum scan over the bucket-map keys:
`if minDate.IsZero() || date.Before(minDate) { minDate = date }`.  The
`IsZero` test is meant as the uninitialised-sentinel check, but it also
fires when the running minimum is the genuine 0001-01-01 bucket. -/
def goMinStep (zero m d : ℤ) : ℤ := if m = zero ∨ d < m then d else m

/-- One step of the source's maximum scan over the bucket-map keys:
`if maxDate.IsZero() || date.After(maxDate) { maxDate = date }`. -/
def goMaxStep (zero m d : ℤ) : ℤ := if m = zero ∨ m < d then d else m

/-- The source's `IsZero`-guarded minimum scan over the bucket-map keys,
started from the zero value.  Go map iteration order is unspecified; the
embedding iterates the key set in the order `List.dedup` yields, one
admissible execution.  When no key equals the zero value the scan is
order-independent and returns the true minimum
(`goMinScan_eq_foldlMin`); when a key does equal it, the sentinel check
re-fires on a real bucket and the result depends on the key order. -/
def goMinScan (zero : ℤ) (keys : List ℤ) : ℤ := keys.foldl (goMinStep zero) zero

/-- The source's `IsZero`-guarded maximum scan (see `goMinScan`). -/
def goMaxScan (zero : ℤ) (keys : List ℤ) : ℤ := keys.foldl (goMaxStep zero) zero

/-- `aggregateByDay` from the source: count per calendar day, scan the
day-map keys for the minimum and maximum with the `IsZero`-guarded
updates, then emit one record per day from that minimum to that maximum
(`AddDate(0,0,1)` advances the day-truncated UTC moment by exactly one
day index). -/
def aggregateByDay (times : List ℤ) : List DayRecord :=
  if times = [] then []
  else
    let ds := times.map dayOf
    let keys := ds.dedup
    let minDate := goMinScan zeroDay keys
    let maxDate := goMaxScan zeroDay keys
    (List.range ((maxDate - minDate).toNat + 1)).map
      (fun i : ℕ => { date := minDate + (i : ℤ), count := ds.count (minDate + (i : ℤ)) })

/-- `aggregateByMonth` from the source: count per month key, scan the
month-map keys for the minimum and maximum with the `IsZero`-guarded
updates, then emit one record per month index from that minimum to that
maximum (`AddDate(0,1,0)` on a first-of-month moment advances the month
index by one). -/
def aggregateByMonth (times : List ℤ) : List MonthRecord :=
  if times = [] then []
  else
    let ms := times.map monthIndexOf
    let keys := ms.dedup
    let minMonth := goMinScan zeroMonth keys
    let maxMonth := goMaxScan zeroMonth keys
    (List.range ((maxMonth - minMonth).toNat + 1)).map
      (fun i : ℕ => { month := minMonth + (i : ℤ), count := ms.count (minMonth + (i : ℤ)) })

/-- One entry of the week aggregation: the ISO `(year, week)` key, the
week-start stored for the first moment carrying the key, and the running
count. -/
structure WeekAggEntry where
  key : ℤ × ℤ
  weekStart : ℤ
  count : ℕ
deriving DecidableEq

/-- One step of the `weekMap`/`weekStarts` loop of `aggregateByWeek`. -/
def weekAggInsert (l : List WeekAggEntry) (k : ℤ × ℤ) (ws : ℤ) : List WeekAggEntry :=
  match l with
  | [] => [⟨k, ws, 1⟩]
  | e :: rest =>
    if e.key = k then ⟨e.key, e.weekStart, e.count + 1⟩ :: rest
    else e :: weekAggInsert rest k ws

/-- `aggregateByWeek` from the source: count per ISO-week key, remember the
week's Monday from its first moment, sort the observed week starts
ascending, and emit the records in that order (sparse: only observed weeks
appear). -/
def aggregateByWeek (times : List ℤ) : List WeekRecord :=
  let entries := times.foldl
    (fun l t => weekAggInsert l (isoWeekOf (dayOf t)) (weekStartDay (dayOf t))) []
  let sorted := List.insertionSort
    (fun a b : WeekAggEntry => a.weekStart ≤ b.weekStart) entries
  sorted.map (fun e => { week := e.weekStart, count := e.count })

/-- One step of the `groupByQuarter` map insertion (append to the quarter's
slice, first-insertion key order). -/
def quarterInsert (l : List ((ℤ × ℤ) × List ℤ)) (k : ℤ × ℤ) (t : ℤ) :
    List ((ℤ × ℤ) × List ℤ) :=
  match l with
  | [] => [(k, [t])]
  | p :: rest =>
    if p.1 = k then (p.1, p.2 ++ [t]) :: rest else p :: quarterInsert rest k t

/-- `groupByQuarter` from the source. -/
def groupByQuarter (times : List ℤ) : List ((ℤ × ℤ) × List ℤ) :=
  times.foldl (fun m t => quarterInsert m (getQuarter t) t) []

/-- `detectQuarterlyPeriods` from the source. -/
def detectQuarterlyPeriods (cfg : PeriodConfig) (tr : Trig) (times : List ℤ) :
    List ((ℤ × ℤ) × List PeriodResult) :=
  (groupByQuarter times).map (fun q => (q.1, detect cfg tr q.2))

/-- The loop state of `findLongestContinuousPeriod`: the current run
`[cs, ce]` of length `clen` and the best run seen `[ms, me]` of length
`mlen` (day indices; the Go zero-value `time.Time` initialisers of the best
run are never read, day index 0 stands in for them). -/
structure RunState where
  cs : ℤ
  ce : ℤ
  clen : ℕ
  ms : ℤ
  me : ℤ
  mlen : ℕ
deriving DecidableEq

/-- The `currentLength > maxLength` comparison closing a run: the best run
is replaced only on strictly greater length. -/
def closeRun (st : RunState) : RunState :=
  if st.mlen < st.clen then { st with ms := st.cs, me := st.ce, mlen := st.clen }
  else st

/-- The day-scanning loop of `findLongestContinuousPeriod` (`i ≥ 1`; at
each step `st.ce` holds `days[i-1]`, so the gap test
`days[i].Sub(days[i-1]).Hours()/24 ≤ 2` is `d - st.ce ≤ 2` on day
indices). -/
def scanLoop : RunState → List ℤ → RunState
  | st, [] => st
  | st, d :: rest =>
    if d - st.ce ≤ 2 then scanLoop { st with ce := d, clen := st.clen + 1 } rest
    else
      let st1 := closeRun st
      scanLoop { st1 with cs := d, ce := d, clen := 1 } rest

/-- A run of calendar days: first day, last day, number of unique days. -/
structure Run where
  s : ℤ
  e : ℤ
  len : ℕ
deriving DecidableEq

/-- The complete scan of `findLongestContinuousPeriod` over the sorted
unique day list: initialise the current run at the first day, scan the
rest, close the final run. -/
def findLongestRunDays (days : List ℤ) : Run :=
  match days with
  | [] => ⟨0, 0, 0⟩
  | d :: rest =>
    let st := closeRun (scanLoop ⟨d, d, 1, 0, 0, 0⟩ rest)
    ⟨st.ms, st.me, st.mlen⟩

/-- `findLongestContinuousPeriod` from the source.  `sort.Slice` with the
`Before` comparator sorts the moment values ascending (on integer values
the sorted list is unique, so the library sort is modelled by any sort);
the unique day set, taken from the sorted list, is its deduplicated day
image.  The returned bounds are the best run's first/last day as
day-truncated moments, and the kept records are those in
`[start, end + 24h)` filtered from the (sorted) working slice. -/
def findLongestContinuousPeriod (times : List ℤ) : ℤ × ℤ × List ℤ :=
  if times.length < 2 then (zeroTimeMs, zeroTimeMs, times)
  else
    let sorted := List.insertionSort (fun a b : ℤ => a ≤ b) times
    let days := (sorted.map dayOf).dedup
    let r := findLongestRunDays days
    if r.len = 0 then (sorted.headD 0, sorted.getLastD 0, sorted)
    else
      let startLimit := r.s * 86400000
      let endLimit := (r.e + 1) * 86400000
      (r.s * 86400000, r.e * 86400000,
        sorted.filter (fun t => decide (startLimit ≤ t ∧ t < endLimit)))

/-- The zero value of `PeriodResults`. -/
def emptyPeriodResults : PeriodResults :=
  { daily := [], weekly := [], allTime := [], quarterly := [] }

/-- `analyzeContinuousPeriods` from the source: the three `AllData`
sub-fields are three identical `detect` calls on the unfiltered input; the
three `LongestContinuous` sub-fields are three identical `detect` calls on
the longest-continuous subset (populated only when that subset is
non-empty); `Quarterly` is never assigned in either. -/
def analyzeContinuousPeriods (cfg : PeriodConfig) (tr : Trig) (times : List ℤ) :
    ContinuousResult :=
  if times = [] then
    { allData := emptyPeriodResults, longestContinuous := emptyPeriodResults,
      start := zeroTimeMs, endTime := zeroTimeMs, recordCount := 0 }
  else
    let allData : PeriodResults :=
      { daily := detect cfg tr times, weekly := detect cfg tr times,
        allTime := detect cfg tr times, quarterly := [] }
    let fl := findLongestContinuousPeriod times
    if fl.2.2 = [] then
      { allData := allData, longestContinuous := emptyPeriodResults,
        start := zeroTimeMs, endTime := zeroTimeMs, recordCount := times.length }
    else
      { allData := allData,
        longestContinuous :=
          { daily := detect cfg tr fl.2.2, weekly := detect cfg tr fl.2.2,
            allTime := detect cfg tr fl.2.2, quarterly := [] },
        start := fl.1, endTime := fl.2.1, recordCount := times.length }

/-- `AnalyzeTimestamps` from the source: validation first, then conversion
to moments, calendar aggregation, the four spectral windows (72 h and
336 h = 259200000 ms and 1209600000 ms), and the continuity analysis. -/
def AnalyzeTimestamps (timestamps : List ℤ) (cfg : PeriodConfig) (tr : Trig) :
    Except String AnalysisResult :=
  if timestamps = [] then .error "no timestamps provided"
  else if cfg.minPeriod ≤ 0 then .error "minPeriod must be positive"
  else if cfg.maxPeriod ≤ 0 then .error "maxPeriod must be positive"
  else if cfg.maxPeriod ≤ cfg.minPeriod then .error "minPeriod must be less than maxPeriod"
  else if cfg.numPeriods ≤ 0 then .error "numPeriods must be at least 1"
  else
    let times := timestamps.map toMoment
    let dr := findDateRange times
    let periods : PeriodResults :=
      { daily := detect cfg tr (filterByTimeRange times dr.2 259200000),
        weekly := detect cfg tr (filterByTimeRange times dr.2 1209600000),
        allTime := detect cfg tr times,
        quarterly := detectQuarterlyPeriods cfg tr times }
    .ok { totalRecords := times.length, startDate := dr.1, endDate := dr.2,
          days := aggregateByDay times, weeks := aggregateByWeek times,
          months := aggregateByMonth times, periods := periods,
          continuous := analyzeContinuousPeriods cfg tr times }

/-- State-passing rendering of `AnalyzeTimestamps`: the second component is
the content of the caller's timestamp slice when the call returns.  The
conversion loop reads that slice element-wise into a freshly `make`-allocated
`times` slice, so the in-place `sort.Slice` inside
`findLongestContinuousPeriod` writes only to the fresh slice; no statement
of the function writes through the caller's slice, which is returned as it
was read. -/
def analyzeTimestampsProc (timestamps : List ℤ) (cfg : PeriodConfig) (tr : Trig) :
    Except String AnalysisResult × List ℤ :=
  if timestamps = [] then (.error "no timestamps provided", timestamps)
  else if cfg.minPeriod ≤ 0 then (.error "minPeriod must be positive", timestamps)
  else if cfg.maxPeriod ≤ 0 then (.error "maxPeriod must be positive", timestamps)
  else if cfg.maxPeriod ≤ cfg.minPeriod then
    (.error "minPeriod must be less than maxPeriod", timestamps)
  else if cfg.numPeriods ≤ 0 then (.error "numPeriods must be at least 1", timestamps)
  else
    let times := timestamps.map toMoment
    let dr := findDateRange times
    let periods : PeriodResults :=
      { daily := detect cfg tr (filterByTimeRange times dr.2 259200000),
        weekly := detect cfg tr (filterByTimeRange times dr.2 1209600000),
        allTime := detect cfg tr times,
        quarterly := detectQuarterlyPeriods cfg tr times }
    (.ok { totalRecords := times.length, startDate := dr.1, endDate := dr.2,
           days := aggregateByDay times, weeks := aggregateByWeek times,
           months := aggregateByMonth times, periods := periods,
           continuous := analyzeContinuousPeriods cfg tr times },
     timestamps)

/-- Whether an analysis call failed with a validation error. -/
def resultError : Except String AnalysisResult → Bool
  | .error _ => true
  | .ok _ => false

/-- Extract the result of a successful analysis call. -/
def extractOk : Except String AnalysisResult → AnalysisResult
  | .ok r => r
  | .error _ => default

/-- A concrete trigonometric oracle for witnesses. -/
def zeroTrig : Trig := { cos := fun _ => 0, sin := fun _ => 0, pi := 0 }

/-- The `maxLength`-vs-run bookkeeping as one step: keep the better run,
replacing only on strictly greater length (spec §4.5 tie-break). -/
def pickRun (b r : Run) : Run := if b.len < r.len then r else b

/-- Spec §4.5 step 3, stated as a decomposition: split the day list into
runs, a run extending while the gap between consecutive days is at most
2 days. -/
def runsAux (s e : ℤ) (n : ℕ) : List ℤ → List Run
  | [] => [⟨s, e, n⟩]
  | d :: rest =>
    if d - e ≤ 2 then runsAux s d (n + 1) rest
    else ⟨s, e, n⟩ :: runsAux d d 1 rest

/-- The run decomposition of a day list. -/
def dayRuns : List ℤ → List Run
  | [] => []
  | d :: rest => runsAux d d 1 rest

/-- The grid size the spec prescribes (§4.2 step 4):
`round(samplesPerPeak × T × (maxFreq − minFreq))` clamped to
`[100, 10000]`. -/
def specGridSize (cfg : PeriodConfig) (T : ℚ) : ℤ :=
  min 10000 (max 100 (round ((cfg.samplesPerPeak : ℚ) * T * (1 / cfg.minPeriod - 1 / cfg.maxPeriod))))

/-- The grid size the code computes: the same product converted by Go's
truncating `int(...)` conversion, clamped to `[100, 10000]`. -/
def goGridSize (cfg : PeriodConfig) (T : ℚ) : ℤ :=
  min 10000 (max 100 (ratTrunc ((cfg.samplesPerPeak : ℚ) * T * (1 / cfg.minPeriod - 1 / cfg.maxPeriod))))

instance : DecidableEq (Except String AnalysisResult) := fun a b =>
  match a, b with
  | .ok x, .ok y => if h : x = y then isTrue (by rw [h]) else isFalse (by simp [h])
  | .error x, .error y => if h : x = y then isTrue (by rw [h]) else isFalse (by simp [h])
  | .ok _, .error _ => isFalse (by simp)
  | .error _, .ok _ => isFalse (by simp)

lemma analyzeContinuousPeriods_quarterly (cfg : PeriodConfig) (tr : Trig) (times : List ℤ) :
    (analyzeContinuousPeriods cfg tr times).allData.quarterly = [] ∧
    (analyzeContinuousPeriods cfg tr times).longestContinuous.quarterly = [] := by
  by_cases h1 : times = []
  · simp [analyzeContinuousPeriods, h1, emptyPeriodResults]
  · by_cases h2 : (findLongestContinuousPeriod times).2.2 = []
    · simp [analyzeContinuousPeriods, h1, h2, emptyPeriodResults]
    · simp [analyzeContinuousPeriods, h1, h2]

/-- C6: within `ContinuousResult`, the daily, weekly and allTime
sub-sequences of `AllData` are pairwise equal and all equal to `detect` on
the unfiltered input (no 72 h / 336 h re-filtering), and the three
sub-sequences of `LongestContinuous` are pairwise equal and, when the
longest-continuous subset is non-empty, all equal to `detect` on that
subset. -/
theorem c6_continuous_subfields_equal (cfg : PeriodConfig) (tr : Trig) (times : List ℤ) :
    ((analyzeContinuousPeriods cfg tr times).allData.daily =
        (analyzeContinuousPeriods cfg tr times).allData.weekly ∧
      (analyzeContinuousPeriods cfg tr times).allData.weekly =
        (analyzeContinuousPeriods cfg tr times).allData.allTime ∧
      (analyzeContinuousPeriods cfg tr times).allData.daily = detect cfg tr times) ∧
    ((analyzeContinuousPeriods cfg tr times).longestContinuous.daily =
        (analyzeContinuousPeriods cfg tr times).longestContinuous.weekly ∧
      (analyzeContinuousPeriods cfg tr times).longestContinuous.weekly =
        (analyzeContinuousPeriods cfg tr times).longestContinuous.allTime ∧
      ((findLongestContinuousPeriod times).2.2 ≠ [] → times ≠ [] →
        (analyzeContinuousPeriods cfg tr times).longestContinuous.daily =
          detect cfg tr (findLongestContinuousPeriod times).2.2)) := by
  by_cases h1 : times = []
  · simp [analyzeContinuousPeriods, h1, emptyPeriodResults, detect]
  · by_cases h2 : (findLongestContinuousPeriod times).2.2 = []
    · simp [analyzeContinuousPeriods, h1, h2, emptyPeriodResults]
    · simp [analyzeContinuousPeriods, h1, h2]

theorem c6_witness :
    (analyzeContinuousPeriods DefaultPeriodConfig zeroTrig [0, 1]).longestContinuous.daily =
      detect DefaultPeriodConfig zeroTrig (findLongestContinuousPeriod [0, 1]).2.2 :=
  (c6_continuous_subfields_equal DefaultPeriodConfig zeroTrig [0, 1]).2.2.2
    (by decide) (by decide)

/-- C10: in every returned `AnalysisResult`, the `Quarterly` field of both
`Continuous.AllData` and `Continuous.LongestContinuous` is empty: quarterly
analysis happens only for the top-level `Periods`, never inside the
continuous-run analysis. -/
theorem c10_continuous_quarterly_empty (ts : List ℤ) (cfg : PeriodConfig) (tr : Trig)
    (r : AnalysisResult) (h : AnalyzeTimestamps ts cfg tr = .ok r) :
    r.continuous.allData.quarterly = [] ∧
    r.continuous.longestContinuous.quarterly = [] := by
  unfold AnalyzeTimestamps at h
  split_ifs at h
  have hr := Except.ok.inj h
  subst hr
  exact analyzeContinuousPeriods_quarterly cfg tr (ts.map toMoment)

lemma ok_of_not_error (e : Except String AnalysisResult) (h : resultError e = false) :
    e = .ok (extractOk e) := by
  cases e
  · simp [resultError] at h
  · rfl

theorem c10_witness :
    (extractOk (AnalyzeTimestamps [0] DefaultPeriodConfig zeroTrig)).continuous.allData.quarterly = [] ∧
    (extractOk (AnalyzeTimestamps [0] DefaultPeriodConfig zeroTrig)).continuous.longestContinuous.quarterly = [] :=
  c10_continuous_quarterly_empty [0] DefaultPeriodConfig zeroTrig
    (extractOk (AnalyzeTimestamps [0] DefaultPeriodConfig zeroTrig))
    (ok_of_not_error _ (by with_unfolding_all decide))

/-- C8: the analysis never mutates the caller's timestamp slice: in the
state-passing rendering the slice contents after the call equal the
contents before it (the in-place sort of the continuity analysis works on
the freshly allocated converted slice), and the computed result is that of
the plain function. -/
theorem c8_timestamps_not_mutated (ts : List ℤ) (cfg : PeriodConfig) (tr : Trig) :
    (analyzeTimestampsProc ts cfg tr).2 = ts ∧
    (analyzeTimestampsProc ts cfg tr).1 = AnalyzeTimestamps ts cfg tr := by
  unfold analyzeTimestampsProc AnalyzeTimestamps
  split_ifs <;> exact ⟨rfl, rfl⟩

lemma detect_eq (cfg : PeriodConfig) (tr : Trig) (w : List ℤ) :
    detect cfg tr w = if w.length < 4 then []
      else findSignificantPeaks cfg (computePeriodogram cfg tr (convertToHours w)).1
        (computePeriodogram cfg tr (convertToHours w)).2 := rfl

lemma computePeriodogram_of_nonpos (cfg : PeriodConfig) (tr : Trig) (w : List ℚ)
    (hT : w.getLastD 0 - w.headD 0 ≤ 0) :
    computePeriodogram cfg tr w = ([], []) := by
  simp only [computePeriodogram]
  rw [if_pos hT]

lemma findSignificantPeaks_nil (cfg : PeriodConfig) (freqs powers : List ℚ)
    (hp : findLocalPeaks powers = []) :
    findSignificantPeaks cfg freqs powers = [] := by
  simp [findSignificantPeaks, hp]

/-- C2: `AnalyzeTimestamps` fails exactly when the timestamp collection is
empty, or `minPeriod ≤ 0`, or `maxPeriod ≤ 0`, or `minPeriod ≥ maxPeriod`,
or `numPeriods ≤ 0`; the degenerate conditions — fewer than 4 points in a
window, non-positive time span, no interior local maximum — yield an empty
period sequence, never an error. -/
theorem c2_error_iff (ts : List ℤ) (cfg : PeriodConfig) (tr : Trig) :
    (resultError (AnalyzeTimestamps ts cfg tr) = true ↔
      ts = [] ∨ cfg.minPeriod ≤ 0 ∨ cfg.maxPeriod ≤ 0 ∨
        cfg.maxPeriod ≤ cfg.minPeriod ∨ cfg.numPeriods ≤ 0) ∧
    (∀ w : List ℤ, w.length < 4 → detect cfg tr w = []) ∧
    (∀ w : List ℤ,
      (convertToHours w).getLastD 0 - (convertToHours w).headD 0 ≤ 0 →
        detect cfg tr w = []) ∧
    (∀ freqs powers : List ℚ, findLocalPeaks powers = [] →
      findSignificantPeaks cfg freqs powers = []) := by
  refine ⟨?_, ?_, ?_, ?_⟩
  · unfold AnalyzeTimestamps
    split_ifs <;> simp_all [resultError]
  · intro w hw
    rw [detect_eq, if_pos hw]
  · intro w hT
    rw [detect_eq]
    by_cases hw : w.length < 4
    · rw [if_pos hw]
    · rw [if_neg hw, computePeriodogram_of_nonpos cfg tr _ hT]
      exact findSignificantPeaks_nil cfg [] [] rfl
  · exact findSignificantPeaks_nil cfg

theorem c2_witness :
    resultError (AnalyzeTimestamps [] DefaultPeriodConfig zeroTrig) = true ∧
    detect DefaultPeriodConfig zeroTrig [1, 2, 3] = [] :=
  ⟨(c2_error_iff [] DefaultPeriodConfig zeroTrig).1.mpr (Or.inl rfl),
   (c2_error_iff [] DefaultPeriodConfig zeroTrig).2.1 [1, 2, 3] (by decide)⟩

lemma computePeriodogram_length (cfg : PeriodConfig) (tr : Trig) (w : List ℚ)
    (hT : 0 < w.getLastD 0 - w.headD 0) :
    ((computePeriodogram cfg tr w).1.length : ℤ) =
      goGridSize cfg (w.getLastD 0 - w.headD 0) ∧
    100 ≤ (computePeriodogram cfg tr w).1.length ∧
    (computePeriodogram cfg tr w).1.length ≤ 10000 := by
  simp only [computePeriodogram, goGridSize]
  rw [if_neg (not_le.mpr hT)]
  dsimp only
  simp only [List.length_map, List.length_range]
  split_ifs <;> refine ⟨?_, ?_, ?_⟩ <;> omega

/-- C9: `SamplesPerPeak` is never validated: for every non-empty timestamp
collection and every configuration whose `minPeriod`, `maxPeriod` and
`numPeriods` satisfy the documented constraints, the analysis succeeds for
any `samplesPerPeak` value, and whenever a spectrum is computed the
grid-size clamp still yields at least 100 frequencies. -/
theorem c9_samplesPerPeak_unvalidated :
    (∀ (ts : List ℤ) (cfg : PeriodConfig) (tr : Trig), ts ≠ [] →
      0 < cfg.minPeriod → cfg.minPeriod < cfg.maxPeriod → 0 < cfg.numPeriods →
      resultError (AnalyzeTimestamps ts cfg tr) = false) ∧
    (∀ (cfg : PeriodConfig) (tr : Trig) (w : List ℚ),
      0 < w.getLastD 0 - w.headD 0 →
      100 ≤ (computePeriodogram cfg tr w).1.length) := by
  constructor
  · intro ts cfg tr h1 h2 h3 h4
    unfold AnalyzeTimestamps
    rw [if_neg h1, if_neg (not_le.mpr h2), if_neg (not_le.mpr (h2.trans h3)),
      if_neg (not_le.mpr h3), if_neg (not_le.mpr h4)]
    rfl
  · intro cfg tr w hT
    exact (computePeriodogram_length cfg tr w hT).2.1

theorem c9_witness :
    resultError (AnalyzeTimestamps [0]
      { minPeriod := 1/10, maxPeriod := 8760, numPeriods := 5, samplesPerPeak := -7 }
      zeroTrig) = false ∧
    100 ≤ (computePeriodogram
      { minPeriod := 1/10, maxPeriod := 8760, numPeriods := 5, samplesPerPeak := -7 }
      zeroTrig [0, 0, 0, 1]).1.length :=
  ⟨c9_samplesPerPeak_unvalidated.1 [0] _ zeroTrig (by decide)
      (by norm_num) (by norm_num) (by decide),
   c9_samplesPerPeak_unvalidated.2 _ zeroTrig [0, 0, 0, 1]
      (by with_unfolding_all decide)⟩

/-- C4 counterexample: with `samplesPerPeak = 1`, `minPeriod = 1`,
`maxPeriod = 10000` and a spectrum input of 4 points spanning
`T = 500.9` hours, the product is `500.84991`; the code's grid has
`int(500.84991) = 500` frequencies while the claimed
`round(500.84991) = 501` — so the grid size does not equal the rounded
product clamped to `[100, 10000]`. -/
theorem c4_counterexample :
    4 ≤ ([0, 0, 0, (5009 : ℚ)/10] : List ℚ).length ∧
    0 < ([0, 0, 0, (5009 : ℚ)/10] : List ℚ).getLastD 0 -
      ([0, 0, 0, (5009 : ℚ)/10] : List ℚ).headD 0 ∧
    ¬ (((computePeriodogram
          { minPeriod := 1, maxPeriod := 10000, numPeriods := 5, samplesPerPeak := 1 }
          zeroTrig [0, 0, 0, (5009 : ℚ)/10]).1.length : ℤ) =
        specGridSize
          { minPeriod := 1, maxPeriod := 10000, numPeriods := 5, samplesPerPeak := 1 }
          (([0, 0, 0, (5009 : ℚ)/10] : List ℚ).getLastD 0 -
            ([0, 0, 0, (5009 : ℚ)/10] : List ℚ).headD 0)) := by
  refine ⟨by decide, by with_unfolding_all decide, ?_⟩
  set_option maxRecDepth 8000 in with_unfolding_all decide

/-- C4 amended: whenever a spectrum is computed (at least 4 points and
positive positional span `T`), the frequency-grid size equals the Go
truncation `int(samplesPerPeak × T × (maxFreq − minFreq))` — not the
rounding the claim states — clamped to `[100, 10000]`; in particular the
grid never holds fewer than 100 or more than 10000 frequencies. -/
theorem c4_grid_size_amended (cfg : PeriodConfig) (tr : Trig) (w : List ℚ)
    (_h4 : 4 ≤ w.length) (hT : 0 < w.getLastD 0 - w.headD 0) :
    ((computePeriodogram cfg tr w).1.length : ℤ) =
      goGridSize cfg (w.getLastD 0 - w.headD 0) ∧
    100 ≤ (computePeriodogram cfg tr w).1.length ∧
    (computePeriodogram cfg tr w).1.length ≤ 10000 :=
  computePeriodogram_length cfg tr w hT

theorem c4_witness :
    ((computePeriodogram
        { minPeriod := 1, maxPeriod := 10000, numPeriods := 5, samplesPerPeak := 1 }
        zeroTrig [0, 0, 0, (5009 : ℚ)/10]).1.length : ℤ) =
      goGridSize
        { minPeriod := 1, maxPeriod := 10000, numPeriods := 5, samplesPerPeak := 1 }
        (([0, 0, 0, (5009 : ℚ)/10] : List ℚ).getLastD 0 -
          ([0, 0, 0, (5009 : ℚ)/10] : List ℚ).headD 0) ∧
    100 ≤ (computePeriodogram
        { minPeriod := 1, maxPeriod := 10000, numPeriods := 5, samplesPerPeak := 1 }
        zeroTrig [0, 0, 0, (5009 : ℚ)/10]).1.length ∧
    (computePeriodogram
        { minPeriod := 1, maxPeriod := 10000, numPeriods := 5, samplesPerPeak := 1 }
        zeroTrig [0, 0, 0, (5009 : ℚ)/10]).1.length ≤ 10000 :=
  c4_grid_size_amended _ zeroTrig _ (by decide) (by with_unfolding_all decide)

lemma computePower_nonneg (tr : Trig) (times : List ℚ) (freq : ℚ) :
    0 ≤ computePower tr times freq := by
  unfold computePower
  exact div_nonneg (add_nonneg (mul_self_nonneg _) (mul_self_nonneg _)) (Nat.cast_nonneg _)

lemma computePeriodogram_snd (cfg : PeriodConfig) (tr : Trig) (w : List ℚ) :
    (computePeriodogram cfg tr w).2 =
      (computePeriodogram cfg tr w).1.map (fun f => computePower tr w f) := by
  by_cases hT : w.getLastD 0 - w.headD 0 ≤ 0
  · rw [computePeriodogram_of_nonpos cfg tr w hT]
    rfl
  · simp only [computePeriodogram]
    rw [if_neg hT]

lemma mem_findLocalPeaks_lt {powers : List ℚ} {i : ℕ} (h : i ∈ findLocalPeaks powers) :
    i < powers.length := by
  have := (List.mem_filter.mp h).1
  exact List.mem_range.mp this

lemma totalPower_pos (powers : List ℚ) : 0 < totalPower powers := by
  simp only [totalPower]
  split_ifs with h
  · norm_num
  · have : (1 : ℚ)/10000000000 ≤ powers.sum := not_lt.mp h
    linarith

lemma le_totalPower (powers : List ℚ) (hpos : ∀ p ∈ powers, 0 ≤ p)
    (p : ℚ) (hp : p ∈ powers) : p ≤ totalPower powers := by
  have hs : p ≤ powers.sum := List.single_le_sum hpos p hp
  simp only [totalPower]
  split_ifs with h
  · linarith
  · exact hs

lemma findSignificantPeaks_mem {cfg : PeriodConfig} {freqs powers : List ℚ}
    {r : PeriodResult} (hr : r ∈ findSignificantPeaks cfg freqs powers) :
    ∃ i ∈ findLocalPeaks powers, r = emitPeak freqs powers (totalPower powers) i := by
  by_cases hp : findLocalPeaks powers = []
  · rw [findSignificantPeaks_nil cfg freqs powers hp] at hr
    cases hr
  · simp only [findSignificantPeaks] at hr
    rw [if_neg hp] at hr
    obtain ⟨i, hi, rfl⟩ := List.mem_map.mp hr
    refine ⟨i, ?_, rfl⟩
    have hsorted : i ∈ sortPeaksByPower (findLocalPeaks powers) powers := by
      by_cases hlen : ((sortPeaksByPower (findLocalPeaks powers) powers).length : ℤ) >
          cfg.numPeriods
      · rw [if_pos hlen] at hi
        exact List.take_subset _ _ hi
      · rw [if_neg hlen] at hi
        exact hi
    exact (List.perm_insertionSort (peakOrder powers) (findLocalPeaks powers)).mem_iff.mp
      hsorted

/-- C1: every power of a computed spectrum is non-negative, and for a
spectrum of non-negative powers every `PeriodResult` the peak extractor
returns has `significance = power / totalPower × 100`, with `totalPower`
the sum over the entire spectrum floored at `1e-10`; consequently every
returned significance lies in `[0, 100]`. -/
theorem c1_significance_formula_and_range :
    (∀ (cfg : PeriodConfig) (tr : Trig) (w : List ℚ),
      ∀ p ∈ (computePeriodogram cfg tr w).2, 0 ≤ p) ∧
    (∀ (cfg : PeriodConfig) (freqs powers : List ℚ),
      (∀ p ∈ powers, 0 ≤ p) →
      ∀ r ∈ findSignificantPeaks cfg freqs powers,
        r.significance = r.power / totalPower powers * 100 ∧
        0 ≤ r.significance ∧ r.significance ≤ 100) := by
  constructor
  · intro cfg tr w p hp
    rw [computePeriodogram_snd] at hp
    obtain ⟨f, _, rfl⟩ := List.mem_map.mp hp
    exact computePower_nonneg tr w f
  · intro cfg freqs powers hpos r hr
    obtain ⟨i, hi, rfl⟩ := findSignificantPeaks_mem hr
    have hlen := mem_findLocalPeaks_lt hi
    have hmem : powers.getD i 0 ∈ powers := by
      rw [List.getD_eq_getElem powers 0 hlen]
      exact List.getElem_mem hlen
    have h0 : 0 ≤ powers.getD i 0 := hpos _ hmem
    have hle : powers.getD i 0 ≤ totalPower powers := le_totalPower powers hpos _ hmem
    have htp : 0 < totalPower powers := totalPower_pos powers
    refine ⟨rfl, ?_, ?_⟩
    · have : 0 ≤ powers.getD i 0 / totalPower powers := div_nonneg h0 htp.le
      simpa [emitPeak] using mul_nonneg this (by norm_num : (0:ℚ) ≤ 100)
    · have h1 : powers.getD i 0 / totalPower powers ≤ 1 := (div_le_one htp).mpr hle
      have := mul_le_mul_of_nonneg_right h1 (by norm_num : (0:ℚ) ≤ 100)
      simpa [emitPeak] using this

theorem c1_witness :
    ((⟨1/2, 5, 250/3⟩ : PeriodResult)).significance =
      ((⟨1/2, 5, 250/3⟩ : PeriodResult)).power / totalPower [0, 5, 1] * 100 ∧
    0 ≤ ((⟨1/2, 5, 250/3⟩ : PeriodResult)).significance ∧
    ((⟨1/2, 5, 250/3⟩ : PeriodResult)).significance ≤ 100 :=
  c1_significance_formula_and_range.2 DefaultPeriodConfig [1, 2, 4] [0, 5, 1]
    (by with_unfolding_all decide) ⟨1/2, 5, 250/3⟩ (by with_unfolding_all decide)

instance (powers : List ℚ) : IsTotal ℕ (peakOrder powers) := ⟨by
  intro i j
  rcases lt_trichotomy (powers.getD i 0) (powers.getD j 0) with h | h | h
  · exact Or.inr (Or.inl h)
  · rcases le_total i j with hij | hij
    · exact Or.inl (Or.inr ⟨h, hij⟩)
    · exact Or.inr (Or.inr ⟨h.symm, hij⟩)
  · exact Or.inl (Or.inl h)⟩

instance (powers : List ℚ) : IsTrans ℕ (peakOrder powers) := ⟨by
  intro i j k hij hjk
  rcases hij with h1 | ⟨e1, l1⟩ <;> rcases hjk with h2 | ⟨e2, l2⟩
  · exact Or.inl (h2.trans h1)
  · exact Or.inl (by rw [← e2]; exact h1)
  · exact Or.inl (by rw [e1]; exact h2)
  · exact Or.inr ⟨e1.trans e2, l1.trans l2⟩⟩

lemma findSignificantPeaks_eq (cfg : PeriodConfig) (freqs powers : List ℚ) :
    findSignificantPeaks cfg freqs powers =
      ((sortPeaksByPower (findLocalPeaks powers) powers).take cfg.numPeriods.toNat).map
        (emitPeak freqs powers (totalPower powers)) := by
  simp only [findSignificantPeaks]
  by_cases hp : findLocalPeaks powers = []
  · rw [if_pos hp, hp]
    simp [sortPeaksByPower]
  · rw [if_neg hp]
    by_cases hlen : ((sortPeaksByPower (findLocalPeaks powers) powers).length : ℤ) >
        cfg.numPeriods
    · rw [if_pos hlen]
    · rw [if_neg hlen, List.take_of_length_le]
      omega

/-- C3: for every spectrum and valid configuration, the returned sequence
is the interior strict local maxima ordered by descending power with exact
ties in ascending frequency-index order (the total order `peakOrder`,
uniquely determined by the permutation-plus-sortedness conjuncts),
truncated to at most `numPeriods` elements; the emitted results are sorted
by non-increasing power.  The tie order rests on the spec-modelled stable
sort `sortPeaksByPower`. -/
theorem c3_peak_ranking (cfg : PeriodConfig) (freqs powers : List ℚ)
    (_hn : 1 ≤ cfg.numPeriods) :
    ∃ ps : List ℕ,
      ps.Perm (findLocalPeaks powers) ∧
      List.Sorted (peakOrder powers) ps ∧
      findSignificantPeaks cfg freqs powers =
        (ps.take cfg.numPeriods.toNat).map (emitPeak freqs powers (totalPower powers)) ∧
      List.Sorted (fun a b : PeriodResult => b.power ≤ a.power)
        (findSignificantPeaks cfg freqs powers) ∧
      (findSignificantPeaks cfg freqs powers).length ≤ cfg.numPeriods.toNat := by
  refine ⟨sortPeaksByPower (findLocalPeaks powers) powers,
    List.perm_insertionSort _ _, List.sorted_insertionSort _ _,
    findSignificantPeaks_eq cfg freqs powers, ?_, ?_⟩
  · rw [findSignificantPeaks_eq cfg freqs powers]
    have hs : List.Sorted (peakOrder powers)
        ((sortPeaksByPower (findLocalPeaks powers) powers).take cfg.numPeriods.toNat) :=
      (List.sorted_insertionSort _ _).sublist (List.take_sublist _ _)
    refine List.pairwise_map.mpr (hs.imp ?_)
    intro i j hij
    rcases hij with h | ⟨e, _⟩
    · exact le_of_lt h
    · exact le_of_eq e.symm
  · rw [findSignificantPeaks_eq cfg freqs powers, List.length_map]
    exact List.length_take_le _ _

theorem c3_witness :
    ∃ ps : List ℕ,
      ps.Perm (findLocalPeaks [0, 5, 1]) ∧
      List.Sorted (peakOrder [0, 5, 1]) ps ∧
      findSignificantPeaks DefaultPeriodConfig [1, 2, 4] [0, 5, 1] =
        (ps.take DefaultPeriodConfig.numPeriods.toNat).map
          (emitPeak [1, 2, 4] [0, 5, 1] (totalPower [0, 5, 1])) ∧
      List.Sorted (fun a b : PeriodResult => b.power ≤ a.power)
        (findSignificantPeaks DefaultPeriodConfig [1, 2, 4] [0, 5, 1]) ∧
      (findSignificantPeaks DefaultPeriodConfig [1, 2, 4] [0, 5, 1]).length ≤
        DefaultPeriodConfig.numPeriods.toNat :=
  c3_peak_ranking DefaultPeriodConfig [1, 2, 4] [0, 5, 1] (by decide)

lemma closeRun_run (cs ce : ℤ) (n : ℕ) (ms me : ℤ) (ml : ℕ) :
    (⟨(closeRun ⟨cs, ce, n, ms, me, ml⟩).ms, (closeRun ⟨cs, ce, n, ms, me, ml⟩).me,
      (closeRun ⟨cs, ce, n, ms, me, ml⟩).mlen⟩ : Run) =
      pickRun ⟨ms, me, ml⟩ ⟨cs, ce, n⟩ := by
  simp only [closeRun, pickRun]
  split_ifs <;> rfl

lemma scanLoop_foldl (ds : List ℤ) : ∀ (cs ce : ℤ) (n : ℕ) (ms me : ℤ) (ml : ℕ),
    (⟨(closeRun (scanLoop ⟨cs, ce, n, ms, me, ml⟩ ds)).ms,
      (closeRun (scanLoop ⟨cs, ce, n, ms, me, ml⟩ ds)).me,
      (closeRun (scanLoop ⟨cs, ce, n, ms, me, ml⟩ ds)).mlen⟩ : Run) =
      (runsAux cs ce n ds).foldl pickRun ⟨ms, me, ml⟩ := by
  induction ds with
  | nil =>
    intro cs ce n ms me ml
    simp only [scanLoop, runsAux, List.foldl]
    exact closeRun_run cs ce n ms me ml
  | cons d rest ih =>
    intro cs ce n ms me ml
    by_cases h : d - ce ≤ 2
    · simp only [scanLoop, runsAux, if_pos h]
      exact ih cs d (n + 1) ms me ml
    · simp only [scanLoop, runsAux, if_neg h, List.foldl]
      rw [← closeRun_run cs ce n ms me ml]
      exact ih d d 1 _ _ _

lemma runsAux_ne_nil (ds : List ℤ) : ∀ (s e : ℤ) (n : ℕ), runsAux s e n ds ≠ [] := by
  induction ds with
  | nil => intro s e n; simp [runsAux]
  | cons d rest ih =>
    intro s e n
    by_cases h : d - e ≤ 2
    · simpa only [runsAux, if_pos h] using ih s d (n + 1)
    · simp only [runsAux, if_neg h]
      exact List.cons_ne_nil _ _

lemma runsAux_len_pos (ds : List ℤ) : ∀ (s e : ℤ) (n : ℕ), 1 ≤ n →
    ∀ x ∈ runsAux s e n ds, 1 ≤ x.len := by
  induction ds with
  | nil =>
    intro s e n hn x hx
    simp only [runsAux, List.mem_singleton] at hx
    subst hx
    exact hn
  | cons d rest ih =>
    intro s e n hn x hx
    by_cases h : d - e ≤ 2
    · rw [runsAux, if_pos h] at hx
      exact ih s d (n + 1) (by omega) x hx
    · rw [runsAux, if_neg h] at hx
      rcases List.mem_cons.mp hx with rfl | hx
      · exact hn
      · exact ih d d 1 (by omega) x hx

lemma foldl_pickRun_firstmax (rs : List Run) : ∀ b : Run,
    (rs.foldl pickRun b = b ∧ ∀ x ∈ rs, x.len ≤ b.len) ∨
    ∃ pre r post, rs = pre ++ r :: post ∧ rs.foldl pickRun b = r ∧ b.len < r.len ∧
      (∀ x ∈ pre, x.len < r.len) ∧ (∀ x ∈ post, x.len ≤ r.len) := by
  induction rs with
  | nil => intro b; exact Or.inl ⟨rfl, by simp⟩
  | cons x rest ih =>
    intro b
    by_cases hbx : b.len < x.len
    · have hpk : pickRun b x = x := by simp [pickRun, hbx]
      rcases ih x with ⟨hfold, hall⟩ | ⟨pre, r, post, heq, hfold, hlt, hpre, hpost⟩
      · refine Or.inr ⟨[], x, rest, rfl, ?_, hbx, by simp, hall⟩
        simpa [hpk] using hfold
      · refine Or.inr ⟨x :: pre, r, post, by rw [heq, List.cons_append], ?_,
          hbx.trans hlt, ?_, hpost⟩
        · simpa [hpk] using hfold
        · intro y hy
          rcases List.mem_cons.mp hy with rfl | hy
          · exact hlt
          · exact hpre y hy
    · have hpk : pickRun b x = b := by simp [pickRun, hbx]
      rcases ih b with ⟨hfold, hall⟩ | ⟨pre, r, post, heq, hfold, hlt, hpre, hpost⟩
      · refine Or.inl ⟨by simpa [hpk] using hfold, ?_⟩
        intro y hy
        rcases List.mem_cons.mp hy with rfl | hy
        · omega
        · exact hall y hy
      · refine Or.inr ⟨x :: pre, r, post, by rw [heq, List.cons_append], ?_, hlt, ?_,
          hpost⟩
        · simpa [hpk] using hfold
        · intro y hy
          rcases List.mem_cons.mp hy with rfl | hy
          · omega
          · exact hpre y hy

/-- C5: the day scan extends the current run exactly while the gap between
consecutive unique days is at most 2 (the decomposition `dayRuns`), and
the run it returns is the first run of maximal length: every earlier run
is strictly shorter and every later run is no longer — a later equal-length
run never replaces it, because the best run is replaced only on strictly
greater length. -/
theorem c5_first_longest_run (d : ℤ) (rest : List ℤ) :
    ∃ pre r post,
      dayRuns (d :: rest) = pre ++ r :: post ∧
      findLongestRunDays (d :: rest) = r ∧
      (∀ x ∈ pre, x.len < r.len) ∧
      (∀ x ∈ post, x.len ≤ r.len) := by
  have heq : findLongestRunDays (d :: rest) =
      (runsAux d d 1 rest).foldl pickRun ⟨0, 0, 0⟩ := by
    rw [findLongestRunDays]
    exact scanLoop_foldl rest d d 1 0 0 0
  rcases foldl_pickRun_firstmax (runsAux d d 1 rest) ⟨0, 0, 0⟩ with
    ⟨_, hall⟩ | ⟨pre, r, post, h1, h2, _, h4, h5⟩
  · exfalso
    obtain ⟨x, hx⟩ := List.exists_mem_of_ne_nil _ (runsAux_ne_nil rest d d 1)
    have h1 := runsAux_len_pos rest d d 1 le_rfl x hx
    have h2 := hall x hx
    have h3 : (⟨0, 0, 0⟩ : Run).len = 0 := rfl
    omega
  · exact ⟨pre, r, post, h1, by rw [heq, h2], h4, h5⟩

theorem c5_witness :
    ∃ pre r post,
      dayRuns [0, 1, 10, 11, 12] = pre ++ r :: post ∧
      findLongestRunDays [0, 1, 10, 11, 12] = r ∧
      (∀ x ∈ pre, x.len < r.len) ∧
      (∀ x ∈ post, x.len ≤ r.len) :=
  c5_first_longest_run 0 [1, 10, 11, 12]

lemma foldl_min_le_init (l : List ℤ) : ∀ a : ℤ, l.foldl min a ≤ a := by
  induction l with
  | nil => intro a; exact le_refl a
  | cons x t ih =>
    intro a
    calc (x :: t).foldl min a = t.foldl min (min a x) := rfl
    _ ≤ min a x := ih (min a x)
    _ ≤ a := min_le_left a x

lemma foldl_min_le_mem (l : List ℤ) : ∀ (a : ℤ) (x : ℤ), x ∈ l → l.foldl min a ≤ x := by
  induction l with
  | nil => intro a x hx; cases hx
  | cons y t ih =>
    intro a x hx
    rcases List.mem_cons.mp hx with rfl | hx
    · calc (x :: t).foldl min a = t.foldl min (min a x) := rfl
      _ ≤ min a x := foldl_min_le_init t (min a x)
      _ ≤ x := min_le_right a x
    · exact ih (min a y) x hx

lemma foldl_min_eq_or_mem (l : List ℤ) : ∀ a : ℤ, l.foldl min a = a ∨ l.foldl min a ∈ l := by
  induction l with
  | nil => intro a; exact Or.inl rfl
  | cons x t ih =>
    intro a
    rcases ih (min a x) with h | h
    · rcases min_choice a x with hm | hm
      · exact Or.inl (by rw [List.foldl_cons, h, hm])
      · exact Or.inr (by rw [List.foldl_cons, h, hm]; exact List.mem_cons_self x t)
    · exact Or.inr (List.mem_cons_of_mem x h)

lemma foldl_max_le_init (l : List ℤ) : ∀ a : ℤ, a ≤ l.foldl max a := by
  induction l with
  | nil => intro a; exact le_refl a
  | cons x t ih =>
    intro a
    calc a ≤ max a x := le_max_left a x
    _ ≤ t.foldl max (max a x) := ih (max a x)
    _ = (x :: t).foldl max a := rfl

lemma foldl_max_le_mem (l : List ℤ) : ∀ (a : ℤ) (x : ℤ), x ∈ l → x ≤ l.foldl max a := by
  induction l with
  | nil => intro a x hx; cases hx
  | cons y t ih =>
    intro a x hx
    rcases List.mem_cons.mp hx with rfl | hx
    · calc x ≤ max a x := le_max_right a x
      _ ≤ t.foldl max (max a x) := foldl_max_le_init t (max a x)
      _ = (x :: t).foldl max a := rfl
    · exact ih (max a y) x hx

lemma foldl_max_eq_or_mem (l : List ℤ) : ∀ a : ℤ, l.foldl max a = a ∨ l.foldl max a ∈ l := by
  induction l with
  | nil => intro a; exact Or.inl rfl
  | cons x t ih =>
    intro a
    rcases ih (max a x) with h | h
    · rcases max_choice a x with hm | hm
      · exact Or.inl (by rw [List.foldl_cons, h, hm])
      · exact Or.inr (by rw [List.foldl_cons, h, hm]; exact List.mem_cons_self x t)
    · exact Or.inr (List.mem_cons_of_mem x h)

lemma foldlMin_le (l : List ℤ) : ∀ x ∈ l, foldlMin l ≤ x :=
  fun x hx => foldl_min_le_mem l (l.headD 0) x hx

lemma foldlMin_mem (l : List ℤ) (h : l ≠ []) : foldlMin l ∈ l := by
  rcases foldl_min_eq_or_mem l (l.headD 0) with h1 | h1
  · rw [foldlMin, h1]
    cases l with
    | nil => exact absurd rfl h
    | cons x t => exact List.mem_cons_self x t
  · exact h1

lemma foldlMax_le (l : List ℤ) : ∀ x ∈ l, x ≤ foldlMax l :=
  fun x hx => foldl_max_le_mem l (l.headD 0) x hx

lemma foldlMax_mem (l : List ℤ) (h : l ≠ []) : foldlMax l ∈ l := by
  rcases foldl_max_eq_or_mem l (l.headD 0) with h1 | h1
  · rw [foldlMax, h1]
    cases l with
    | nil => exact absurd rfl h
    | cons x t => exact List.mem_cons_self x t
  · exact h1

lemma range_map_add_sorted (a : ℤ) (n : ℕ) :
    List.Sorted (· < ·) ((List.range (n + 1)).map (fun i : ℕ => a + (i : ℤ))) := by
  refine List.pairwise_map.mpr (List.Pairwise.imp ?_ (List.pairwise_lt_range (n + 1)))
  intro i j hij
  have : (i : ℤ) < j := by exact_mod_cast hij
  omega

lemma range_map_add_mem (a b : ℤ) (hab : a ≤ b) (d : ℤ) :
    d ∈ (List.range ((b - a).toNat + 1)).map (fun i : ℕ => a + (i : ℤ)) ↔
      a ≤ d ∧ d ≤ b := by
  constructor
  · intro hd
    obtain ⟨i, hi, rfl⟩ := List.mem_map.mp hd
    have hi := List.mem_range.mp hi
    omega
  · intro ⟨h1, h2⟩
    refine List.mem_map.mpr ⟨(d - a).toNat, List.mem_range.mpr (by omega), by omega⟩

lemma foldl_goMinStep_eq_min (keys : List ℤ) : ∀ zero m : ℤ, m ≠ zero →
    (∀ d ∈ keys, d ≠ zero) →
    keys.foldl (goMinStep zero) m = keys.foldl min m := by
  induction keys with
  | nil => intro zero m _ _; rfl
  | cons d rest ih =>
    intro zero m hm hall
    have hd : d ≠ zero := hall d (List.mem_cons_self d rest)
    have hstep : goMinStep zero m d = min m d := by
      by_cases hlt : d < m
      · rw [goMinStep, if_pos (Or.inr hlt)]
        exact (min_eq_right hlt.le).symm
      · rw [goMinStep, if_neg (fun hc => hc.elim hm hlt)]
        exact (min_eq_left (not_lt.mp hlt)).symm
    rw [List.foldl_cons, List.foldl_cons, hstep]
    refine ih zero (min m d) ?_ (fun x hx => hall x (List.mem_cons_of_mem d hx))
    rcases min_choice m d with h | h <;> rw [h]
    · exact hm
    · exact hd

lemma foldl_goMaxStep_eq_max (keys : List ℤ) : ∀ zero m : ℤ, m ≠ zero →
    (∀ d ∈ keys, d ≠ zero) →
    keys.foldl (goMaxStep zero) m = keys.foldl max m := by
  induction keys with
  | nil => intro zero m _ _; rfl
  | cons d rest ih =>
    intro zero m hm hall
    have hd : d ≠ zero := hall d (List.mem_cons_self d rest)
    have hstep : goMaxStep zero m d = max m d := by
      by_cases hlt : m < d
      · rw [goMaxStep, if_pos (Or.inr hlt)]
        exact (max_eq_right hlt.le).symm
      · rw [goMaxStep, if_neg (fun hc => hc.elim hm hlt)]
        exact (max_eq_left (not_lt.mp hlt)).symm
    rw [List.foldl_cons, List.foldl_cons, hstep]
    refine ih zero (max m d) ?_ (fun x hx => hall x (List.mem_cons_of_mem d hx))
    rcases max_choice m d with h | h <;> rw [h]
    · exact hm
    · exact hd

lemma goMinScan_eq_foldlMin (zero : ℤ) (keys : List ℤ) (hne : keys ≠ [])
    (hall : ∀ d ∈ keys, d ≠ zero) : goMinScan zero keys = foldlMin keys := by
  cases keys with
  | nil => exact absurd rfl hne
  | cons k rest =>
    have hk : k ≠ zero := hall k (List.mem_cons_self k rest)
    have h1 : goMinScan zero (k :: rest) = rest.foldl (goMinStep zero) k := by
      rw [goMinScan, List.foldl_cons, goMinStep, if_pos (Or.inl rfl)]
    have h2 : foldlMin (k :: rest) = rest.foldl min k := by
      rw [foldlMin]
      show (k :: rest).foldl min k = rest.foldl min k
      rw [List.foldl_cons, min_self]
    rw [h1, h2]
    exact foldl_goMinStep_eq_min rest zero k hk
      (fun d hd => hall d (List.mem_cons_of_mem k hd))

lemma goMaxScan_eq_foldlMax (zero : ℤ) (keys : List ℤ) (hne : keys ≠ [])
    (hall : ∀ d ∈ keys, d ≠ zero) : goMaxScan zero keys = foldlMax keys := by
  cases keys with
  | nil => exact absurd rfl hne
  | cons k rest =>
    have hk : k ≠ zero := hall k (List.mem_cons_self k rest)
    have h1 : goMaxScan zero (k :: rest) = rest.foldl (goMaxStep zero) k := by
      rw [goMaxScan, List.foldl_cons, goMaxStep, if_pos (Or.inl rfl)]
    have h2 : foldlMax (k :: rest) = rest.foldl max k := by
      rw [foldlMax]
      show (k :: rest).foldl max k = rest.foldl max k
      rw [List.foldl_cons, max_self]
    rw [h1, h2]
    exact foldl_goMaxStep_eq_max rest zero k hk
      (fun d hd => hall d (List.mem_cons_of_mem k hd))

lemma aggregateByDay_dates (times : List ℤ) (h : ¬ times = []) :
    (aggregateByDay times).map DayRecord.date =
      (List.range ((goMaxScan zeroDay ((times.map dayOf).dedup) -
        goMinScan zeroDay ((times.map dayOf).dedup)).toNat + 1)).map
        (fun i : ℕ => goMinScan zeroDay ((times.map dayOf).dedup) + (i : ℤ)) := by
  simp only [aggregateByDay, if_neg h, List.map_map]
  rfl

lemma aggregateByDay_counts (times : List ℤ) (h : ¬ times = []) :
    ∀ r ∈ aggregateByDay times, r.count = (times.map dayOf).count r.date := by
  intro r hr
  simp only [aggregateByDay, if_neg h] at hr
  obtain ⟨i, _, rfl⟩ := List.mem_map.mp hr
  rfl

lemma aggregateByMonth_dates (times : List ℤ) (h : ¬ times = []) :
    (aggregateByMonth times).map MonthRecord.month =
      (List.range ((goMaxScan zeroMonth ((times.map monthIndexOf).dedup) -
        goMinScan zeroMonth ((times.map monthIndexOf).dedup)).toNat + 1)).map
        (fun i : ℕ => goMinScan zeroMonth ((times.map monthIndexOf).dedup) + (i : ℤ)) := by
  simp only [aggregateByMonth, if_neg h, List.map_map]
  rfl

lemma aggregateByMonth_counts (times : List ℤ) (h : ¬ times = []) :
    ∀ r ∈ aggregateByMonth times, r.count = (times.map monthIndexOf).count r.month := by
  intro r hr
  simp only [aggregateByMonth, if_neg h] at hr
  obtain ⟨i, _, rfl⟩ := List.mem_map.mp hr
  rfl

/-- Density of the day series away from the sentinel collision: whenever
no day bucket equals `zeroDay`, the `IsZero`-guarded scans compute the
true observed minimum and maximum (independently of the key order) and
the series is dense, ascending, and correctly counted. -/
lemma aggregateByDay_dense_of_no_zeroDay (times : List ℤ) (h : ¬ times = [])
    (hz : zeroDay ∉ times.map dayOf) :
    List.Sorted (· < ·) ((aggregateByDay times).map DayRecord.date) ∧
    (∀ d : ℤ, d ∈ (aggregateByDay times).map DayRecord.date ↔
      foldlMin ((times.map dayOf).dedup) ≤ d ∧ d ≤ foldlMax ((times.map dayOf).dedup)) ∧
    foldlMin ((times.map dayOf).dedup) ∈ times.map dayOf ∧
    (∀ x ∈ times.map dayOf, foldlMin ((times.map dayOf).dedup) ≤ x) ∧
    foldlMax ((times.map dayOf).dedup) ∈ times.map dayOf ∧
    (∀ x ∈ times.map dayOf, x ≤ foldlMax ((times.map dayOf).dedup)) ∧
    (∀ r ∈ aggregateByDay times, r.count = (times.map dayOf).count r.date) := by
  have hkeysne : (times.map dayOf).dedup ≠ [] := by
    intro hc
    cases times with
    | nil => exact h rfl
    | cons t rest =>
      have hmem : dayOf t ∈ (List.map dayOf (t :: rest)).dedup :=
        List.mem_dedup.mpr (List.mem_map_of_mem dayOf (List.mem_cons_self t rest))
      rw [hc] at hmem
      cases hmem
  have hall : ∀ d ∈ (times.map dayOf).dedup, d ≠ zeroDay := by
    intro d hdm hc
    exact hz (hc ▸ List.mem_dedup.mp hdm)
  have hminEq := goMinScan_eq_foldlMin zeroDay _ hkeysne hall
  have hmaxEq := goMaxScan_eq_foldlMax zeroDay _ hkeysne hall
  have hminMem : foldlMin ((times.map dayOf).dedup) ∈ times.map dayOf :=
    List.mem_dedup.mp (foldlMin_mem _ hkeysne)
  have hmaxMem : foldlMax ((times.map dayOf).dedup) ∈ times.map dayOf :=
    List.mem_dedup.mp (foldlMax_mem _ hkeysne)
  have hminLe : ∀ x ∈ times.map dayOf, foldlMin ((times.map dayOf).dedup) ≤ x :=
    fun x hx => foldlMin_le _ x (List.mem_dedup.mpr hx)
  have hmaxLe : ∀ x ∈ times.map dayOf, x ≤ foldlMax ((times.map dayOf).dedup) :=
    fun x hx => foldlMax_le _ x (List.mem_dedup.mpr hx)
  have hab : foldlMin ((times.map dayOf).dedup) ≤ foldlMax ((times.map dayOf).dedup) :=
    hminLe _ hmaxMem
  refine ⟨?_, ?_, hminMem, hminLe, hmaxMem, hmaxLe, aggregateByDay_counts times h⟩
  · rw [aggregateByDay_dates times h, hminEq, hmaxEq]
    exact range_map_add_sorted _ _
  · intro d
    rw [aggregateByDay_dates times h, hminEq, hmaxEq]
    exact range_map_add_mem _ _ hab d

/-- Density of the month series away from the sentinel collision (see
`aggregateByDay_dense_of_no_zeroDay`). -/
lemma aggregateByMonth_dense_of_no_zeroMonth (times : List ℤ) (h : ¬ times = [])
    (hz : zeroMonth ∉ times.map monthIndexOf) :
    List.Sorted (· < ·) ((aggregateByMonth times).map MonthRecord.month) ∧
    (∀ d : ℤ, d ∈ (aggregateByMonth times).map MonthRecord.month ↔
      foldlMin ((times.map monthIndexOf).dedup) ≤ d ∧
        d ≤ foldlMax ((times.map monthIndexOf).dedup)) ∧
    foldlMin ((times.map monthIndexOf).dedup) ∈ times.map monthIndexOf ∧
    (∀ x ∈ times.map monthIndexOf, foldlMin ((times.map monthIndexOf).dedup) ≤ x) ∧
    foldlMax ((times.map monthIndexOf).dedup) ∈ times.map monthIndexOf ∧
    (∀ x ∈ times.map monthIndexOf, x ≤ foldlMax ((times.map monthIndexOf).dedup)) ∧
    (∀ r ∈ aggregateByMonth times, r.count = (times.map monthIndexOf).count r.month) := by
  have hkeysne : (times.map monthIndexOf).dedup ≠ [] := by
    intro hc
    cases times with
    | nil => exact h rfl
    | cons t rest =>
      have hmem : monthIndexOf t ∈ (List.map monthIndexOf (t :: rest)).dedup :=
        List.mem_dedup.mpr (List.mem_map_of_mem monthIndexOf (List.mem_cons_self t rest))
      rw [hc] at hmem
      cases hmem
  have hall : ∀ d ∈ (times.map monthIndexOf).dedup, d ≠ zeroMonth := by
    intro d hdm hc
    exact hz (hc ▸ List.mem_dedup.mp hdm)
  have hminEq := goMinScan_eq_foldlMin zeroMonth _ hkeysne hall
  have hmaxEq := goMaxScan_eq_foldlMax zeroMonth _ hkeysne hall
  have hminMem : foldlMin ((times.map monthIndexOf).dedup) ∈ times.map monthIndexOf :=
    List.mem_dedup.mp (foldlMin_mem _ hkeysne)
  have hmaxMem : foldlMax ((times.map monthIndexOf).dedup) ∈ times.map monthIndexOf :=
    List.mem_dedup.mp (foldlMax_mem _ hkeysne)
  have hminLe : ∀ x ∈ times.map monthIndexOf,
      foldlMin ((times.map monthIndexOf).dedup) ≤ x :=
    fun x hx => foldlMin_le _ x (List.mem_dedup.mpr hx)
  have hmaxLe : ∀ x ∈ times.map monthIndexOf,
      x ≤ foldlMax ((times.map monthIndexOf).dedup) :=
    fun x hx => foldlMax_le _ x (List.mem_dedup.mpr hx)
  have hab : foldlMin ((times.map monthIndexOf).dedup) ≤
      foldlMax ((times.map monthIndexOf).dedup) :=
    hminLe _ hmaxMem
  refine ⟨?_, ?_, hminMem, hminLe, hmaxMem, hmaxLe, aggregateByMonth_counts times h⟩
  · rw [aggregateByMonth_dates times h, hminEq, hmaxEq]
    exact range_map_add_sorted _ _
  · intro d
    rw [aggregateByMonth_dates times h, hminEq, hmaxEq]
    exact range_map_add_mem _ _ hab d

set_option maxRecDepth 4000 in
/-- C7 (failing input): the timestamp −62135596800000 ms is
0001-01-01T00:00:00Z, whose day bucket is exactly the zero `time.Time`.
With input `[−62135596800000, −62135164800000]` (0001-01-01 and
0001-01-06) the `IsZero` sentinel re-fires after the zero-day bucket is
taken as the running minimum, so both scans end at the later day
`−719157` and the emitted series is the single record for that day: the
observed bucket `zeroDay = −719162`, and the four zero-count days the
claim requires between the observed minimum and maximum, are missing —
the series is not dense.  With input
`[−62135596800000, −57600000000000]` the same collision drops the
observed month bucket `zeroMonth`. -/
theorem c7_zero_sentinel_bug :
    dayOf (-62135596800000) = zeroDay ∧
    zeroDay ∈ ([-62135596800000, -62135164800000] : List ℤ).map dayOf ∧
    aggregateByDay [-62135596800000, -62135164800000] =
      [{ date := -719157, count := 1 }] ∧
    zeroDay ∉ (aggregateByDay [-62135596800000, -62135164800000]).map DayRecord.date ∧
    monthIndexOf (-62135596800000) = zeroMonth ∧
    zeroMonth ∈ ([-62135596800000, -57600000000000] : List ℤ).map monthIndexOf ∧
    zeroMonth ∉
      (aggregateByMonth [-62135596800000, -57600000000000]).map MonthRecord.month := by
  decide
